import Mathlib

/-!
Verification of the pagmo archipelago core against its sources.

The development shallowly embeds:
* `MigrationSelectionPolicy::getNumberOfIndividualsToMigrate`
  (src/src/problem/dtlz3.cpp, appended MigrationSelectionPolicy.cpp part),
* the `dtlz3` problem constructor (src/src/problem/dtlz3.cpp),
* the archipelago data model declared in src/src/archipelago.h
  (distribution/direction enums with their default arguments, the
  migration map, the migration history item) together with the
  coordinator operations whose behaviour the specification describes
  (the implementation file archipelago.cpp is not among the sources, so
  those operations are modelled from the specification, as flagged in
  their doc comments).

C++ `double` fields are embedded as rationals, machine integers as `Int`
with the conversions made explicit where they matter.
-/

namespace Pagmo

/-! ## Migration selection policy -/

/-- State of a `MigrationSelectionPolicy` object: the two rate fields
read by `getNumberOfIndividualsToMigrate`.  `migrationRateAbs` is a C++
`int`, `migrationRateFrac` a `double` (embedded as `ℚ`). -/
structure MigrationSelectionPolicy where
  migrationRateAbs : Int
  migrationRateFrac : Rat
  deriving DecidableEq, Repr

/-- C cast `(int)` of a `double`: truncation toward zero.  For a
rational `q = num / den` with `den > 0` this is `Int.tdiv num den`. -/
def cDoubleToInt (q : Rat) : Int :=
  Int.tdiv q.num (q.den : Int)

/-- `MigrationSelectionPolicy::getNumberOfIndividualsToMigrate(population)`.
The population is only consulted for its size.  `Except.error` embeds
`pagmo_throw(assertion_error, ...)`. -/
def getNumberOfIndividualsToMigrate (msp : MigrationSelectionPolicy)
    (populationSize : Nat) : Except String Int :=
  if msp.migrationRateAbs < 0 then
    if msp.migrationRateFrac > 1 then
      Except.error "Fractional migration rate is grater than 1!"
    else
      Except.ok (cDoubleToInt (msp.migrationRateFrac * (populationSize : Rat)))
  else
    if msp.migrationRateAbs > (populationSize : Int) then
      Except.error "Absolute migration rate exceeds population size!"
    else
      Except.ok msp.migrationRateAbs

/-- Whether a policy call raised the configuration (assertion) error. -/
def migrationCountRaises (msp : MigrationSelectionPolicy)
    (populationSize : Nat) : Bool :=
  match getNumberOfIndividualsToMigrate msp populationSize with
  | Except.error _ => true
  | Except.ok _ => false

/-- A policy whose absolute rate is negative and whose fractional rate is
negative (hence outside `[0,1]`). -/
def mspNegFrac : MigrationSelectionPolicy :=
  { migrationRateAbs := -1, migrationRateFrac := -1 }

end Pagmo

open Pagmo

/-- C1 (counterexample): with `migrationRateAbs = -1` and
`migrationRateFrac = -1` (outside `[0,1]`) on a population of size 4, the
code returns normally, but the claim predicts an assertion error: the
claimed equivalence fails. -/
theorem c1_claim_false_at_negative_frac :
    ¬ (migrationCountRaises mspNegFrac 4 = true ↔
      ((mspNegFrac.migrationRateAbs < 0 ∧
          (mspNegFrac.migrationRateFrac < 0 ∨ 1 < mspNegFrac.migrationRateFrac)) ∨
        (0 ≤ mspNegFrac.migrationRateAbs ∧ (4 : Int) < mspNegFrac.migrationRateAbs))) := by
  decide

/-- C1 (amended): `getNumberOfIndividualsToMigrate` raises the assertion
error iff either the absolute rate is negative and the fractional rate is
greater than 1, or the absolute rate is non-negative and exceeds the
population size. -/
theorem migrationCountRaises_iff (msp : MigrationSelectionPolicy) (n : Nat) :
    migrationCountRaises msp n = true ↔
      ((msp.migrationRateAbs < 0 ∧ 1 < msp.migrationRateFrac) ∨
        (0 ≤ msp.migrationRateAbs ∧ (n : Int) < msp.migrationRateAbs)) := by
  unfold migrationCountRaises getNumberOfIndividualsToMigrate
  by_cases habs : msp.migrationRateAbs < 0
  · by_cases hfrac : msp.migrationRateFrac > 1
    · simp [habs, hfrac]
    · simp only [if_pos habs, if_neg hfrac]
      simp only [gt_iff_lt] at hfrac
      constructor
      · intro h
        simp at h
      · rintro (⟨_, h⟩ | ⟨h, _⟩)
        · exact absurd h hfrac
        · exact absurd habs (not_lt.mpr h)
  · by_cases hsz : msp.migrationRateAbs > (n : Int)
    · simp [habs, hsz, not_lt.mp habs]
    · simp only [if_neg habs, if_neg hsz]
      simp only [gt_iff_lt] at hsz
      constructor
      · intro h
        simp at h
      · rintro (⟨h, _⟩ | ⟨_, h⟩)
        · exact absurd h habs
        · exact absurd h hsz

namespace Pagmo

/-- On a non-negative rational the C truncation agrees with the floor. -/
theorem cDoubleToInt_eq_floor (q : Rat) (h : 0 ≤ q) : cDoubleToInt q = ⌊q⌋ := by
  unfold cDoubleToInt
  rw [Int.tdiv_eq_ediv (Rat.num_nonneg.mpr h) (by positivity), Rat.floor_def]

/-- On a negative rational the C truncation is non-positive. -/
theorem cDoubleToInt_nonpos (q : Rat) (h : q < 0) : cDoubleToInt q ≤ 0 := by
  unfold cDoubleToInt
  have hnum : q.num < 0 := by
    by_contra hc
    exact absurd (Rat.num_nonneg.mp (not_lt.mp hc)) (not_le.mpr h)
  have h1 : q.num.tdiv (q.den : Int) = -((-q.num).tdiv (q.den : Int)) := by
    rw [Int.neg_tdiv, neg_neg]
  have h2 : (0 : Int) ≤ (-q.num).tdiv (q.den : Int) :=
    Int.tdiv_nonneg (by omega) (by positivity)
  rw [h1]
  exact neg_nonpos_of_nonneg h2

/-- A policy in the absolute-rate branch: absolute rate 2. -/
def mspAbsTwo : MigrationSelectionPolicy :=
  { migrationRateAbs := 2, migrationRateFrac := 0 }

/-- A policy in the fractional-rate branch: fractional rate 0. -/
def mspFracZero : MigrationSelectionPolicy :=
  { migrationRateAbs := -1, migrationRateFrac := 0 }

end Pagmo

/-- C2: whenever `getNumberOfIndividualsToMigrate` returns without error,
the result is the absolute rate when that rate is non-negative, and
otherwise the fractional rate times the population size truncated to an
integer. -/
theorem getNumberOfIndividualsToMigrate_ok_value
    (msp : MigrationSelectionPolicy) (n : Nat) (r : Int)
    (h : getNumberOfIndividualsToMigrate msp n = Except.ok r) :
    r = if 0 ≤ msp.migrationRateAbs then msp.migrationRateAbs
      else cDoubleToInt (msp.migrationRateFrac * (n : Rat)) := by
  unfold getNumberOfIndividualsToMigrate at h
  by_cases habs : msp.migrationRateAbs < 0
  · rw [if_pos habs, if_neg (not_le.mpr habs)] at *
    by_cases hfrac : msp.migrationRateFrac > 1
    · rw [if_pos hfrac] at h
      exact absurd h (by simp)
    · rw [if_neg hfrac] at h
      simpa using h.symm
  · rw [if_neg habs, if_pos (not_lt.mp habs)] at *
    by_cases hsz : msp.migrationRateAbs > (n : Int)
    · rw [if_pos hsz] at h
      exact absurd h (by simp)
    · rw [if_neg hsz] at h
      simpa using h.symm

/-- C2 (witness): on the policy with absolute rate 2 and a population of
size 5 the call returns 2, which matches the absolute-rate branch. -/
theorem getNumberOfIndividualsToMigrate_ok_value_witness :
    (2 : Int) = if 0 ≤ mspAbsTwo.migrationRateAbs then mspAbsTwo.migrationRateAbs
      else cDoubleToInt (mspAbsTwo.migrationRateFrac * ((5 : Nat) : Rat)) :=
  getNumberOfIndividualsToMigrate_ok_value mspAbsTwo 5 2 rfl

/-- C10: whenever `getNumberOfIndividualsToMigrate` returns without
error, the returned count is at most the population size. -/
theorem getNumberOfIndividualsToMigrate_le_size
    (msp : MigrationSelectionPolicy) (n : Nat) (r : Int)
    (h : getNumberOfIndividualsToMigrate msp n = Except.ok r) :
    r ≤ (n : Int) := by
  unfold getNumberOfIndividualsToMigrate at h
  by_cases habs : msp.migrationRateAbs < 0
  · rw [if_pos habs] at h
    by_cases hfrac : msp.migrationRateFrac > 1
    · rw [if_pos hfrac] at h
      exact absurd h (by simp)
    · rw [if_neg hfrac] at h
      have hr : r = cDoubleToInt (msp.migrationRateFrac * (n : Rat)) := by
        simpa using h.symm
      subst hr
      rcases le_or_lt 0 (msp.migrationRateFrac * (n : Rat)) with hq | hq
      · rw [cDoubleToInt_eq_floor _ hq]
        have hle : msp.migrationRateFrac * (n : Rat) ≤ (n : Rat) :=
          mul_le_of_le_one_left (by positivity) (not_lt.mp hfrac)
        calc ⌊msp.migrationRateFrac * (n : Rat)⌋
            ≤ ⌊((n : Nat) : Rat)⌋ := Int.floor_le_floor hle
          _ = (n : Int) := Int.floor_natCast n
      · exact le_trans (cDoubleToInt_nonpos _ hq) (by positivity)
  · rw [if_neg habs] at h
    by_cases hsz : msp.migrationRateAbs > (n : Int)
    · rw [if_pos hsz] at h
      exact absurd h (by simp)
    · rw [if_neg hsz] at h
      have hr : r = msp.migrationRateAbs := by simpa using h.symm
      subst hr
      exact not_lt.mp hsz

/-- C10 (witness): on the policy with fractional rate 0 and a population
of size 3 the call succeeds and the returned count is at most 3. -/
theorem getNumberOfIndividualsToMigrate_le_size_witness :
    cDoubleToInt (mspFracZero.migrationRateFrac * ((3 : Nat) : Rat)) ≤ (3 : Int) :=
  getNumberOfIndividualsToMigrate_le_size mspFracZero 3 _ rfl

namespace Pagmo

/-! ## The dtlz3 problem constructor -/

/-- Modelled from the spec: the `problem::base` part of the state that the
problem interface exposes (problem/base.h and problem/base.cpp are not
among the sources).  A problem declares a decision-vector (global)
dimension, an integer dimension, an objective (fitness) dimension, and
per-coordinate lower and upper bounds; `base(dim, i_dim, f_dim)` stores
the three dimensions and allocates bound vectors of length `dim`. -/
structure ProblemBase where
  dimension : Nat
  i_dimension : Nat
  f_dimension : Nat
  lb : List Rat
  ub : List Rat
  deriving DecidableEq, Repr

/-- Modelled from the spec: the `base(dim, i_dim, f_dim)` constructor. -/
def problemBase (dim i_dim f_dim : Nat) : ProblemBase :=
  { dimension := dim, i_dimension := i_dim, f_dimension := f_dim,
    lb := List.replicate dim 0, ub := List.replicate dim 0 }

/-- Modelled from the spec: `set_lb(value)` with a scalar argument sets
every coordinate of the lower-bound vector to `value`. -/
def ProblemBase.set_lb (p : ProblemBase) (v : Rat) : ProblemBase :=
  { p with lb := List.replicate p.dimension v }

/-- Modelled from the spec: `set_ub(value)` with a scalar argument sets
every coordinate of the upper-bound vector to `value`. -/
def ProblemBase.set_ub (p : ProblemBase) (v : Rat) : ProblemBase :=
  { p with ub := List.replicate p.dimension v }

/-- `dtlz3::dtlz3(k, fdim)`: delegates to `base(k + fdim - 1, 0, fdim)`
and then sets the bounds to `[0, 1]` on every coordinate. -/
def dtlz3 (k fdim : Nat) : ProblemBase :=
  ((problemBase (k + fdim - 1) 0 fdim).set_lb 0).set_ub 1

end Pagmo

/-- C9: for `k ≥ 1` and `fdim ≥ 1`, `dtlz3 k fdim` has decision-vector
dimension `k + fdim - 1`, integer dimension 0, objective dimension
`fdim`, and lower and upper bounds 0 and 1 on every coordinate (the bound
vectors have full length and constant entries). -/
theorem dtlz3_construction (k fdim : Nat) (hk : 1 ≤ k) (hf : 1 ≤ fdim) :
    (dtlz3 k fdim).dimension = k + fdim - 1 ∧
    (dtlz3 k fdim).i_dimension = 0 ∧
    (dtlz3 k fdim).f_dimension = fdim ∧
    (dtlz3 k fdim).lb.length = k + fdim - 1 ∧
    (dtlz3 k fdim).ub.length = k + fdim - 1 ∧
    (∀ x ∈ (dtlz3 k fdim).lb, x = 0) ∧
    (∀ x ∈ (dtlz3 k fdim).ub, x = 1) := by
  refine ⟨rfl, rfl, rfl, ?_, ?_, ?_, ?_⟩
  · simp [dtlz3, ProblemBase.set_lb, ProblemBase.set_ub, problemBase]
  · simp [dtlz3, ProblemBase.set_lb, ProblemBase.set_ub, problemBase]
  · intro x hx
    exact (List.eq_of_mem_replicate hx)
  · intro x hx
    exact (List.eq_of_mem_replicate hx)

/-- C9 (witness): `dtlz3 3 2` has dimension 4, integer dimension 0,
objective dimension 2, and constant bounds 0 and 1. -/
theorem dtlz3_construction_witness :
    (dtlz3 3 2).dimension = 4 ∧
    (dtlz3 3 2).i_dimension = 0 ∧
    (dtlz3 3 2).f_dimension = 2 ∧
    (dtlz3 3 2).lb.length = 4 ∧
    (dtlz3 3 2).ub.length = 4 ∧
    (∀ x ∈ (dtlz3 3 2).lb, x = 0) ∧
    (∀ x ∈ (dtlz3 3 2).ub, x = 1) :=
  dtlz3_construction 3 2 (by decide) (by decide)

namespace Pagmo

/-! ## Archipelago data model (src/src/archipelago.h) -/

/-- `archipelago::distribution_type` (archipelago.h). -/
inductive distribution_type
  | point_to_point
  | broadcast
  deriving DecidableEq, Repr

/-- `archipelago::migration_direction` (archipelago.h). -/
inductive migration_direction
  | source
  | destination
  deriving DecidableEq, Repr

/-- `population::individual_type`: per the spec data model, a triple of
decision vector, fitness vector and constraint vector. -/
abbrev individual_type := List Rat × List Rat × List Rat

/-- Inner hash map of `migration_map_type`: origin island index to the
emigrants pushed under that key.  `boost::unordered_map` with unique keys
is embedded as an association list with insert-replace semantics. -/
abbrev inner_map_type := List (Nat × List individual_type)

/-- `archipelago::migration_map_type` (archipelago.h line 114): outer map
from island index to inner map. -/
abbrev migration_map_type := List (Nat × inner_map_type)

/-- Lookup in an association list (hash map find). -/
def alistFind {α : Type} (k : Nat) : List (Nat × α) → Option α
  | [] => none
  | (k', v) :: rest => if k' = k then some v else alistFind k rest

/-- Insert-or-replace in an association list (hash map operator[]=). -/
def alistInsert {α : Type} (k : Nat) (v : α) : List (Nat × α) → List (Nat × α)
  | [] => [(k, v)]
  | (k', v') :: rest => if k' = k then (k, v) :: rest else (k', v') :: alistInsert k v rest

/-- Remove a key from an association list (hash map erase). -/
def alistErase {α : Type} (k : Nat) : List (Nat × α) → List (Nat × α)
  | [] => []
  | (k', v') :: rest => if k' = k then alistErase k rest else (k', v') :: alistErase k rest

/-- Modelled from the spec: migration store `publish(owner, origin,
individuals)` inserts or replaces `outer[owner][origin]`
(archipelago.cpp is not among the sources). -/
def publish (m : migration_map_type) (owner origin : Nat)
    (inds : List individual_type) : migration_map_type :=
  alistInsert owner (alistInsert origin inds ((alistFind owner m).getD [])) m

/-- Modelled from the spec: migration store `consume(owner)` atomically
extracts and returns `outer[owner]`, leaving it empty. -/
def consume (m : migration_map_type) (owner : Nat) :
    inner_map_type × migration_map_type :=
  ((alistFind owner m).getD [], alistErase owner m)

/-- Modelled from the spec: migration store `peek(owner, origin)` is a
non-destructive read of `outer[owner][origin]`. -/
def peek (m : migration_map_type) (owner origin : Nat) : List individual_type :=
  ((alistFind owner m).getD [] |> alistFind origin).getD []

theorem mem_alistInsert {α : Type} {k : Nat} {v : α} {m : List (Nat × α)}
    {p : Nat × α} (h : p ∈ alistInsert k v m) : p = (k, v) ∨ p ∈ m := by
  induction m with
  | nil =>
    simp only [alistInsert] at h
    simp at h
    exact Or.inl h
  | cons hd tl ih =>
    simp only [alistInsert] at h
    by_cases hk : hd.1 = k
    · rw [if_pos hk] at h
      rcases List.mem_cons.mp h with h1 | h1
      · exact Or.inl h1
      · exact Or.inr (List.mem_cons_of_mem _ h1)
    · rw [if_neg hk] at h
      rcases List.mem_cons.mp h with h1 | h1
      · exact Or.inr (h1 ▸ List.mem_cons_self _ _)
      · rcases ih h1 with h2 | h2
        · exact Or.inl h2
        · exact Or.inr (List.mem_cons_of_mem _ h2)

theorem mem_alistErase {α : Type} {k : Nat} {m : List (Nat × α)}
    {p : Nat × α} (h : p ∈ alistErase k m) : p ∈ m := by
  induction m with
  | nil => simpa [alistErase] using h
  | cons hd tl ih =>
    simp only [alistErase] at h
    by_cases hk : hd.1 = k
    · rw [if_pos hk] at h
      exact List.mem_cons_of_mem _ (ih h)
    · rw [if_neg hk] at h
      rcases List.mem_cons.mp h with h1 | h1
      · exact h1 ▸ List.mem_cons_self _ _
      · exact List.mem_cons_of_mem _ (ih h1)

theorem alistFind_mem {α : Type} {k : Nat} {m : List (Nat × α)} {v : α}
    (h : alistFind k m = some v) : (k, v) ∈ m := by
  induction m with
  | nil => simp [alistFind] at h
  | cons hd tl ih =>
    cases hd with
    | mk a b =>
      simp only [alistFind] at h
      by_cases hk : a = k
      · rw [if_pos hk] at h
        injection h with hbv
        subst hk
        subst hbv
        exact List.mem_cons_self _ _
      · rw [if_neg hk] at h
        exact List.mem_cons_of_mem _ (ih h)

/-- Modelled from the spec: the migration-store states reachable under
destination-initiated migration.  Post-evolution publishes island `v`'s
best individuals under `(v, v)`; pre-evolution reads neighbours' offers
with the non-destructive `peek` (no state change); `consume` may drop an
island's slot entirely. -/
inductive DestinationStoreReachable : migration_map_type → Prop
  | empty : DestinationStoreReachable []
  | publish_best (m : migration_map_type) (v : Nat) (best : List individual_type) :
      DestinationStoreReachable m → DestinationStoreReachable (publish m v v best)
  | consume_entry (m : migration_map_type) (v : Nat) :
      DestinationStoreReachable m → DestinationStoreReachable (consume m v).2

/-- A destination-mode store state obtained by one publish. -/
def destStoreExample : migration_map_type := publish [] 0 0 []

end Pagmo

/-- C3: under destination-initiated migration, every island index that has
an entry in the migration store maps to an inner map with exactly one
entry, keyed by that island itself; this holds after every
publish/consume operation. -/
theorem destination_store_single_self_entry (m : migration_map_type)
    (h : DestinationStoreReachable m) :
    ∀ v inner, (v, inner) ∈ m → ∃ best, inner = [(v, best)] := by
  induction h with
  | empty =>
    intro v inner hmem
    simp at hmem
  | publish_best m0 w best _ ih =>
    intro v inner hmem
    unfold publish at hmem
    rcases mem_alistInsert hmem with h1 | h1
    · obtain ⟨hv, hinner⟩ := Prod.mk.injEq .. ▸ h1
      subst hv
      cases hfind : alistFind v m0 with
      | none =>
        refine ⟨best, ?_⟩
        rw [hinner]
        simp [hfind, alistInsert]
      | some inner0 =>
        obtain ⟨b0, hb0⟩ := ih v inner0 (alistFind_mem hfind)
        refine ⟨best, ?_⟩
        rw [hinner]
        simp [hfind, hb0, alistInsert]
    · exact ih v inner h1
  | consume_entry m0 w _ ih =>
    intro v inner hmem
    unfold consume at hmem
    exact ih v inner (mem_alistErase hmem)

/-- C3 (witness): after island 0 publishes its best individuals into the
empty store, the entry of island 0 is the single pair keyed by 0. -/
theorem destination_store_single_self_entry_witness :
    ∃ best, ([((0 : Nat), ([] : List individual_type))] : inner_map_type) = [(0, best)] :=
  destination_store_single_self_entry destStoreExample
    (DestinationStoreReachable.publish_best [] 0 [] DestinationStoreReachable.empty)
    0 [(0, [])] (by simp [destStoreExample, publish, alistInsert, alistFind])

namespace Pagmo

/-- `topology::base` as seen through the topology interface: a vertex set
`{0, …, num_vertices−1}` (vertices are added at the next free index) and
a directed edge list; `get_neighbors v` collects the successors of `v`. -/
structure topology_base where
  num_vertices : Nat
  edges : List (Nat × Nat)
  deriving DecidableEq, Repr

/-- `topology::base::get_neighbors(v)`. -/
def topology_base.get_neighbors (t : topology_base) (v : Nat) : List Nat :=
  (t.edges.filter (fun e => e.1 == v)).map Prod.snd

/-- `topology::base::push_back()`: add a vertex at the next index; no
edges are attached to it. -/
def topology_base.push_back (t : topology_base) : topology_base :=
  { t with num_vertices := t.num_vertices + 1 }

/-- The vertex set of a topology. -/
def topo_vertices (t : topology_base) : Finset Nat :=
  Finset.range t.num_vertices

/-- `topology::unconnected()`: no vertices yet, never any edges. -/
def topology_unconnected : topology_base :=
  { num_vertices := 0, edges := [] }

/-- `archipelago::migr_hist_item` (archipelago.h line 118): a
`(n_individuals, orig_island, dest_island)` tuple. -/
abbrev migr_hist_item := Nat × Nat × Nat

/-- The state of an `archipelago` object: island count (the container is
abstracted by its size), topology, distribution type, migration
direction, migration map and migration history (archipelago.h lines
151-171). -/
structure ArchState where
  islands : Nat
  topo : topology_base
  dist : distribution_type
  dir : migration_direction
  store : migration_map_type
  hist : List migr_hist_item

/-- The default `distribution_type` argument declared on every
archipelago constructor (archipelago.h lines 122-125). -/
def default_distribution : distribution_type := distribution_type.point_to_point

/-- The default `migration_direction` argument declared on every
archipelago constructor (archipelago.h lines 122-125). -/
def default_direction : migration_direction := migration_direction.destination

/-- Modelled from the spec: `archipelago(dt, md)` builds an empty
archipelago (archipelago.cpp is not among the sources). -/
def archipelago_ctor (dt : distribution_type) (md : migration_direction) : ArchState :=
  { islands := 0, topo := { num_vertices := 0, edges := [] }, dist := dt,
    dir := md, store := [], hist := [] }

/-- Modelled from the spec: `set_topology(t)` fails if the vertex count of
`t` differs from the current island count, otherwise installs `t`. -/
def arch_set_topology (s : ArchState) (t : topology_base) : Option ArchState :=
  if t.num_vertices = s.islands then some { s with topo := t } else none

/-- Modelled from the spec: `archipelago(t, dt, md)` builds an empty
archipelago bound to the topology `t`. -/
def archipelago_ctor_topology (t : topology_base) (dt : distribution_type)
    (md : migration_direction) : Option ArchState :=
  arch_set_topology (archipelago_ctor dt md) t

/-- Modelled from the spec: `push_back(island)` appends an island at index
`N` and adds a matching vertex to the topology. -/
def arch_push_back (s : ArchState) : ArchState :=
  { s with islands := s.islands + 1, topo := s.topo.push_back }

/-- `n` successive `push_back` calls. -/
def arch_push_n (s : ArchState) : Nat → ArchState
  | 0 => s
  | n + 1 => arch_push_back (arch_push_n s n)

/-- Modelled from the spec: `archipelago(p, a, n, m, t, dt, md)` builds an
archipelago of `n` islands of `m` random individuals each; the problem,
algorithm and populations are outside the coordinator state, so only the
island count is retained. -/
def archipelago_ctor_full (n m : Nat) (t : topology_base)
    (dt : distribution_type) (md : migration_direction) : Option ArchState :=
  Option.map (fun s => arch_push_n s n) (archipelago_ctor_topology t dt md)

/-- `archipelago(p, a, n, m)` with the topology argument omitted: the
declared default is `topology::unconnected()` (archipelago.h line 124). -/
def archipelago_ctor_full_default_topology (n m : Nat)
    (dt : distribution_type) (md : migration_direction) : Option ArchState :=
  archipelago_ctor_full n m topology_unconnected dt md

/-- Modelled from the spec: the post-evolution hook at island `v` with
emigrants `em` (`choice` resolves the point-to-point random draw).  With
no neighbours nothing is published and no history is recorded; in
destination mode the island publishes its best under `(v, v)`; in source
mode it publishes toward one (point-to-point) or all (broadcast)
neighbours and records one history item per placement. -/
def post_evolution (s : ArchState) (v : Nat) (em : List individual_type)
    (choice : Nat) : ArchState :=
  let ns := s.topo.get_neighbors v
  if ns = [] then s
  else
    match s.dir with
    | migration_direction.destination =>
        { s with store := publish s.store v v em }
    | migration_direction.source =>
        match s.dist with
        | distribution_type.point_to_point =>
            let d := ns.getD (choice % ns.length) 0
            { s with store := publish s.store d v em,
                     hist := s.hist ++ [(em.length, v, d)] }
        | distribution_type.broadcast =>
            { s with store := ns.foldl (fun acc d => publish acc d v em) s.store,
                     hist := s.hist ++ ns.map (fun d => (em.length, v, d)) }

/-- Modelled from the spec: the pre-evolution hook at island `dst`
(`budget u` is the number of individuals the replacement policy
integrates from origin `u`).  In destination mode the island peeks the
offers of its neighbours and records one history item per non-empty
offer; in source mode it consumes its own slot and records one history
item per origin batch. -/
def pre_evolution (s : ArchState) (dst : Nat) (budget : Nat → Nat) : ArchState :=
  match s.dir with
  | migration_direction.destination =>
      let ns := s.topo.get_neighbors dst
      let items := ns.filterMap (fun u =>
        let inds := peek s.store u u
        if inds = [] then none
        else some (min (budget u) inds.length, u, dst))
      { s with hist := s.hist ++ items }
  | migration_direction.source =>
      let inner := (alistFind dst s.store).getD []
      { s with store := alistErase dst s.store,
               hist := s.hist ++ inner.map (fun p => (p.2.length, p.1, dst)) }

theorem pre_evolution_topo (s : ArchState) (dst : Nat) (budget : Nat → Nat) :
    (pre_evolution s dst budget).topo = s.topo := by
  unfold pre_evolution
  cases s.dir <;> rfl

theorem pre_evolution_islands (s : ArchState) (dst : Nat) (budget : Nat → Nat) :
    (pre_evolution s dst budget).islands = s.islands := by
  unfold pre_evolution
  cases s.dir <;> rfl

theorem post_evolution_topo (s : ArchState) (v : Nat) (em : List individual_type)
    (choice : Nat) : (post_evolution s v em choice).topo = s.topo := by
  unfold post_evolution
  by_cases hns : s.topo.get_neighbors v = []
  · simp only [hns, if_pos]
  · simp only [hns, if_neg, ite_false]
    cases s.dir
    · cases s.dist <;> rfl
    · rfl

theorem post_evolution_islands (s : ArchState) (v : Nat) (em : List individual_type)
    (choice : Nat) : (post_evolution s v em choice).islands = s.islands := by
  unfold post_evolution
  by_cases hns : s.topo.get_neighbors v = []
  · simp only [hns, if_pos]
  · simp only [hns, if_neg, ite_false]
    cases s.dir
    · cases s.dist <;> rfl
    · rfl

end Pagmo

namespace Pagmo

/-- Modelled from the spec: the archipelago states reachable by any
sequence of construction, `push_back`, `set_topology`, and evolve+join
(whose observable effect on the coordinator state is a sequence of pre-
and post-evolution hooks). -/
inductive ArchReachable : ArchState → Prop
  | ctor (dt : distribution_type) (md : migration_direction) :
      ArchReachable (archipelago_ctor dt md)
  | ctor_topology (t : topology_base) (dt : distribution_type)
      (md : migration_direction) (s : ArchState) :
      archipelago_ctor_topology t dt md = some s → ArchReachable s
  | ctor_full (n m : Nat) (t : topology_base) (dt : distribution_type)
      (md : migration_direction) (s : ArchState) :
      archipelago_ctor_full n m t dt md = some s → ArchReachable s
  | push_back (s : ArchState) : ArchReachable s → ArchReachable (arch_push_back s)
  | set_topology (s : ArchState) (t : topology_base) (s' : ArchState) :
      ArchReachable s → arch_set_topology s t = some s' → ArchReachable s'
  | pre (s : ArchState) (dst : Nat) (budget : Nat → Nat) :
      ArchReachable s → ArchReachable (pre_evolution s dst budget)
  | post (s : ArchState) (v : Nat) (em : List individual_type) (choice : Nat) :
      ArchReachable s → ArchReachable (post_evolution s v em choice)

theorem archipelago_ctor_topology_some {t : topology_base}
    {dt : distribution_type} {md : migration_direction} {s : ArchState}
    (h : archipelago_ctor_topology t dt md = some s) :
    s = { islands := 0, topo := t, dist := dt, dir := md, store := [], hist := [] } ∧
      t.num_vertices = 0 := by
  unfold archipelago_ctor_topology arch_set_topology archipelago_ctor at h
  split at h
  · next hcond =>
    cases h
    exact ⟨rfl, hcond⟩
  · cases h

theorem arch_push_n_fields (s : ArchState) (n : Nat) :
    (arch_push_n s n).islands = s.islands + n ∧
    (arch_push_n s n).topo.num_vertices = s.topo.num_vertices + n ∧
    (arch_push_n s n).topo.edges = s.topo.edges ∧
    (arch_push_n s n).dist = s.dist ∧
    (arch_push_n s n).dir = s.dir ∧
    (arch_push_n s n).store = s.store ∧
    (arch_push_n s n).hist = s.hist := by
  induction n with
  | zero => exact ⟨rfl, rfl, rfl, rfl, rfl, rfl, rfl⟩
  | succ k ih =>
    obtain ⟨h1, h2, h3, h4, h5, h6, h7⟩ := ih
    simp only [arch_push_n, arch_push_back, topology_base.push_back]
    exact ⟨by rw [h1]; omega, by rw [h2]; omega, h3, h4, h5, h6, h7⟩

/-- Helper: every reachable archipelago state has exactly as many
topology vertices as islands. -/
theorem arch_vertex_count_invariant (s : ArchState) (h : ArchReachable s) :
    s.topo.num_vertices = s.islands := by
  induction h with
  | ctor dt md => rfl
  | ctor_topology t dt md s hs =>
    obtain ⟨hs0, hzero⟩ := archipelago_ctor_topology_some hs
    subst hs0
    exact hzero
  | ctor_full n m t dt md s hs =>
    unfold archipelago_ctor_full at hs
    cases hmid : archipelago_ctor_topology t dt md with
    | none => rw [hmid] at hs; cases hs
    | some s0 =>
      rw [hmid] at hs
      injection hs with hs
      obtain ⟨hs0, hzero⟩ := archipelago_ctor_topology_some hmid
      subst hs0
      subst hs
      obtain ⟨h1, h2, -, -, -, -, -⟩ := arch_push_n_fields _ n
      rw [h1, h2]
      simp [hzero]
  | push_back s _ ih =>
    simp only [arch_push_back, topology_base.push_back]
    rw [ih]
  | set_topology s t s' _ hset ih =>
    unfold arch_set_topology at hset
    split at hset
    · next hcond =>
      cases hset
      exact hcond
    · cases hset
  | pre s dst budget _ ih =>
    rw [pre_evolution_topo, pre_evolution_islands]
    exact ih
  | post s v em choice _ ih =>
    rw [post_evolution_topo, post_evolution_islands]
    exact ih

end Pagmo

/-- C4: after any sequence of archipelago operations (construction,
push_back, set_topology, evolve+join), the vertex set of the topology
equals `{0, …, get_size()−1}`. -/
theorem arch_topology_vertices_range (s : ArchState) (h : ArchReachable s) :
    topo_vertices s.topo = Finset.range s.islands := by
  unfold topo_vertices
  rw [arch_vertex_count_invariant s h]

/-- C4 (witness): after constructing an empty archipelago and pushing one
island, the vertex set is `{0}`. -/
theorem arch_topology_vertices_range_witness :
    topo_vertices (arch_push_back (archipelago_ctor default_distribution default_direction)).topo
      = Finset.range 1 :=
  arch_topology_vertices_range _
    (ArchReachable.push_back _ (ArchReachable.ctor default_distribution default_direction))

/-- C5: every archipelago constructor that omits the distribution or
direction argument uses the declared defaults `point_to_point` and
`destination` (archipelago.h lines 122-125). -/
theorem archipelago_ctor_default_args :
    ((archipelago_ctor default_distribution default_direction).dist = distribution_type.point_to_point ∧
      (archipelago_ctor default_distribution default_direction).dir = migration_direction.destination) ∧
    (∀ t s, archipelago_ctor_topology t default_distribution default_direction = some s →
      s.dist = distribution_type.point_to_point ∧ s.dir = migration_direction.destination) ∧
    (∀ n m t s, archipelago_ctor_full n m t default_distribution default_direction = some s →
      s.dist = distribution_type.point_to_point ∧ s.dir = migration_direction.destination) := by
  refine ⟨⟨rfl, rfl⟩, ?_, ?_⟩
  · intro t s h
    obtain ⟨hs0, -⟩ := archipelago_ctor_topology_some h
    subst hs0
    exact ⟨rfl, rfl⟩
  · intro n m t s h
    unfold archipelago_ctor_full at h
    cases hmid : archipelago_ctor_topology t default_distribution default_direction with
    | none => rw [hmid] at h; cases h
    | some s0 =>
      rw [hmid] at h
      injection h with h
      obtain ⟨hs0, -⟩ := archipelago_ctor_topology_some hmid
      subst hs0
      subst h
      obtain ⟨-, -, -, hdist, hdir, -, -⟩ := arch_push_n_fields _ n
      exact ⟨hdist, hdir⟩

/-- C5 (witness): constructing from the empty unconnected topology with
the declared defaults yields `point_to_point` and `destination`. -/
theorem archipelago_ctor_default_args_witness :
    (archipelago_ctor default_distribution default_direction).dist = distribution_type.point_to_point ∧
    (archipelago_ctor default_distribution default_direction).dir = migration_direction.destination :=
  archipelago_ctor_default_args.2.1 topology_unconnected
    (archipelago_ctor default_distribution default_direction) rfl

namespace Pagmo

/-- Modelled from the spec: states reachable from `s` by pre- and
post-evolution migration hooks (the coordinator-visible steps of an
evolution run). -/
inductive HookReachable : ArchState → ArchState → Prop
  | refl (s : ArchState) : HookReachable s s
  | pre (s s' : ArchState) (dst : Nat) (budget : Nat → Nat) :
      HookReachable s s' → HookReachable s (pre_evolution s' dst budget)
  | post (s s' : ArchState) (v : Nat) (em : List individual_type) (choice : Nat) :
      HookReachable s s' → HookReachable s (post_evolution s' v em choice)

theorem pre_evolution_hist_append (s : ArchState) (dst : Nat) (budget : Nat → Nat) :
    ∃ items, (pre_evolution s dst budget).hist = s.hist ++ items := by
  unfold pre_evolution
  cases s.dir
  · exact ⟨_, rfl⟩
  · exact ⟨_, rfl⟩

theorem post_evolution_hist_append (s : ArchState) (v : Nat)
    (em : List individual_type) (choice : Nat) :
    ∃ items, (post_evolution s v em choice).hist = s.hist ++ items := by
  unfold post_evolution
  by_cases hns : s.topo.get_neighbors v = []
  · exact ⟨[], by simp [hns]⟩
  · simp only [if_neg hns]
    cases s.dir
    · cases s.dist
      · exact ⟨_, rfl⟩
      · exact ⟨_, rfl⟩
    · exact ⟨[], by simp⟩

end Pagmo

/-- C6: a migration history item is a `(count, origin, destination)`
triple (`migr_hist_item`), and the hooks only ever append to the
history: after any run of migration hooks the earlier log is an
unchanged prefix and the newly arrived items follow it in arrival
order. -/
theorem migr_hist_append_only (s s' : ArchState) (h : HookReachable s s') :
    ∃ newItems : List migr_hist_item, s'.hist = s.hist ++ newItems := by
  induction h with
  | refl => exact ⟨[], by simp⟩
  | pre s1 dst budget _ ih =>
    obtain ⟨items, hitems⟩ := ih
    obtain ⟨items2, hitems2⟩ := pre_evolution_hist_append s1 dst budget
    exact ⟨items ++ items2, by rw [hitems2, hitems, List.append_assoc]⟩
  | post s1 v em choice _ ih =>
    obtain ⟨items, hitems⟩ := ih
    obtain ⟨items2, hitems2⟩ := post_evolution_hist_append s1 v em choice
    exact ⟨items ++ items2, by rw [hitems2, hitems, List.append_assoc]⟩

/-- C6 (witness): one pre-evolution hook on a freshly built archipelago
extends the history by a (possibly empty) suffix of new items. -/
theorem migr_hist_append_only_witness :
    ∃ newItems : List migr_hist_item,
      (pre_evolution (archipelago_ctor default_distribution default_direction) 0
          (fun _ => 1)).hist
        = (archipelago_ctor default_distribution default_direction).hist ++ newItems :=
  migr_hist_append_only _ _
    (HookReachable.pre _ _ 0 (fun _ => 1) (HookReachable.refl _))

namespace Pagmo

theorem pre_evolution_store_cases (s : ArchState) (dst : Nat) (budget : Nat → Nat) :
    (pre_evolution s dst budget).store = s.store ∨
    (pre_evolution s dst budget).store = alistErase dst s.store := by
  unfold pre_evolution
  cases s.dir
  · exact Or.inr rfl
  · exact Or.inl rfl

theorem pre_evolution_hist_empty (s : ArchState) (dst : Nat) (budget : Nat → Nat)
    (hedges : s.topo.edges = []) (hstore : s.store = []) (hhist : s.hist = []) :
    (pre_evolution s dst budget).hist = [] := by
  unfold pre_evolution
  have hns : s.topo.get_neighbors dst = [] := by
    simp [topology_base.get_neighbors, hedges]
  cases s.dir
  · simp [hstore, hhist, alistFind]
  · simp [hns, hhist]

theorem post_evolution_eq_of_no_neighbors (s : ArchState) (v : Nat)
    (em : List individual_type) (choice : Nat)
    (hns : s.topo.get_neighbors v = []) :
    post_evolution s v em choice = s := by
  unfold post_evolution
  simp [hns]

/-- Helper: starting from an edgeless topology with empty store and
history, the hooks keep the store and history empty. -/
theorem hook_invariant_no_edges (s s' : ArchState) (h : HookReachable s s')
    (hedges : s.topo.edges = []) (hstore : s.store = []) (hhist : s.hist = []) :
    s'.topo.edges = [] ∧ s'.store = [] ∧ s'.hist = [] := by
  induction h with
  | refl => exact ⟨hedges, hstore, hhist⟩
  | pre s1 dst budget _ ih =>
    obtain ⟨he, hst, hh⟩ := ih
    refine ⟨?_, ?_, ?_⟩
    · rw [pre_evolution_topo]
      exact he
    · rcases pre_evolution_store_cases s1 dst budget with hc | hc
      · rw [hc, hst]
      · rw [hc, hst]
        rfl
    · exact pre_evolution_hist_empty s1 dst budget he hst hh
  | post s1 v em choice _ ih =>
    obtain ⟨he, hst, hh⟩ := ih
    have hns : s1.topo.get_neighbors v = [] := by
      simp [topology_base.get_neighbors, he]
    rw [post_evolution_eq_of_no_neighbors s1 v em choice hns]
    exact ⟨he, hst, hh⟩

end Pagmo

/-- C8: the constructor taking a problem, an algorithm and island and
population counts, called without an explicit topology argument, builds
the archipelago over `topology::unconnected()`: every island has an
empty neighbour set, and no run of migration hooks can ever place
anything in the migration store or record any migration. -/
theorem archipelago_default_topology_no_migration
    (n m : Nat) (dt : distribution_type) (md : migration_direction) (s : ArchState)
    (h : archipelago_ctor_full_default_topology n m dt md = some s) :
    (∀ v, s.topo.get_neighbors v = []) ∧
    (∀ s', HookReachable s s' → s'.store = [] ∧ s'.hist = []) := by
  unfold archipelago_ctor_full_default_topology archipelago_ctor_full at h
  cases hmid : archipelago_ctor_topology topology_unconnected dt md with
  | none => rw [hmid] at h; cases h
  | some s0 =>
    rw [hmid] at h
    injection h with h
    obtain ⟨hs0, -⟩ := archipelago_ctor_topology_some hmid
    subst hs0
    subst h
    obtain ⟨-, -, hedges, -, -, hstore, hhist⟩ := arch_push_n_fields
      { islands := 0, topo := topology_unconnected, dist := dt, dir := md,
        store := [], hist := [] } n
    constructor
    · intro v
      have he : (arch_push_n _ n).topo.edges = ([] : List (Nat × Nat)) := hedges
      simp [topology_base.get_neighbors, he]
    · intro s' hr
      have hinv := hook_invariant_no_edges _ s' hr
        (by simpa [topology_unconnected] using hedges)
        (by simpa using hstore) (by simpa using hhist)
      exact ⟨hinv.2.1, hinv.2.2⟩

/-- C8 (witness): a 2-island archipelago built without a topology
argument has empty neighbour sets and an always-empty store and
history. -/
theorem archipelago_default_topology_no_migration_witness :
    (∀ v, (arch_push_n (archipelago_ctor distribution_type.point_to_point
        migration_direction.source) 2).topo.get_neighbors v = []) ∧
    (∀ s', HookReachable (arch_push_n (archipelago_ctor
        distribution_type.point_to_point migration_direction.source) 2) s' →
      s'.store = [] ∧ s'.hist = []) :=
  archipelago_default_topology_no_migration 2 3
    distribution_type.point_to_point migration_direction.source _ rfl

namespace Pagmo

/-- Phase of one island task relative to the start barrier: not yet
arrived, arrived and waiting, or evolving (past the barrier). -/
inductive island_phase
  | beforeBarrier
  | atBarrier
  | evolving
  deriving DecidableEq, Repr

/-- Modelled from the spec: one interleaving step of the start barrier
(`sync_island_start` over `m_islands_sync_point`; archipelago.cpp is not
among the sources).  An island may arrive at the barrier at any time; it
may pass the barrier into evolution only when every party — every island
— has already arrived, which is exactly an N-party rendezvous whose
party count equals the number of islands. -/
inductive BarrierStep : List island_phase → List island_phase → Prop
  | arrive (ps : List island_phase) (i : Nat)
      (h : ps.get? i = some island_phase.beforeBarrier) :
      BarrierStep ps (ps.set i island_phase.atBarrier)
  | release (ps : List island_phase) (i : Nat)
      (h : ps.get? i = some island_phase.atBarrier)
      (hall : ∀ p ∈ ps, p ≠ island_phase.beforeBarrier) :
      BarrierStep ps (ps.set i island_phase.evolving)

/-- Phase vectors reachable on an `n`-island archipelago from the state
where no island has arrived yet. -/
inductive BarrierReachable (n : Nat) : List island_phase → Prop
  | init : BarrierReachable n (List.replicate n island_phase.beforeBarrier)
  | step (ps ps' : List island_phase) :
      BarrierReachable n ps → BarrierStep ps ps' → BarrierReachable n ps'

/-- Helper: in any reachable phase vector, once some island is evolving,
no island is still before the barrier. -/
theorem barrier_invariant (n : Nat) (ps : List island_phase)
    (h : BarrierReachable n ps) :
    island_phase.evolving ∈ ps → island_phase.beforeBarrier ∉ ps := by
  induction h with
  | init =>
    intro hev
    rcases List.mem_replicate.mp hev with ⟨-, hcontr⟩
    cases hcontr
  | step ps ps' _ hstep ih =>
    cases hstep with
    | arrive i hi =>
      intro hev hbef
      have hev' : island_phase.evolving ∈ ps := by
        rcases List.mem_or_eq_of_mem_set hev with h1 | h1
        · exact h1
        · cases h1
      have hbef' : island_phase.beforeBarrier ∈ ps := by
        rcases List.mem_or_eq_of_mem_set hbef with h1 | h1
        · exact h1
        · cases h1
      exact ih hev' hbef'
    | release i hi hall =>
      intro _ hbef
      rcases List.mem_or_eq_of_mem_set hbef with h1 | h1
      · exact hall _ h1 rfl
      · cases h1

end Pagmo

/-- C7: no island begins evolving before all islands have arrived at the
start barrier, whose party count is the island count (an island can pass
into the evolving phase only when no island is still before the
barrier), and on a 1-island archipelago the barrier releases
immediately: the evolving state is reachable. -/
theorem sync_island_start_barrier :
    (∀ n ps, BarrierReachable n ps →
      ∀ i, ps.get? i = some island_phase.evolving →
        ∀ p ∈ ps, p ≠ island_phase.beforeBarrier) ∧
    BarrierReachable 1 [island_phase.evolving] := by
  constructor
  · intro n ps h i hi p hp hcontr
    subst hcontr
    exact barrier_invariant n ps h (List.get?_mem hi) hp
  · have h0 : BarrierReachable 1 (List.replicate 1 island_phase.beforeBarrier) :=
      BarrierReachable.init
    have h1 : BarrierReachable 1 [island_phase.atBarrier] :=
      BarrierReachable.step _ _ h0
        (BarrierStep.arrive [island_phase.beforeBarrier] 0 rfl)
    have h2 : BarrierReachable 1 [island_phase.evolving] :=
      BarrierReachable.step _ _ h1
        (BarrierStep.release [island_phase.atBarrier] 0 rfl (by
          intro p hp
          rcases List.mem_singleton.mp hp with rfl
          simp))
    exact h2

/-- C7 (witness): on the reachable 1-island evolving state, every phase
differs from `beforeBarrier`. -/
theorem sync_island_start_barrier_witness :
    ∀ p ∈ [island_phase.evolving], p ≠ island_phase.beforeBarrier :=
  sync_island_start_barrier.1 1 [island_phase.evolving]
    sync_island_start_barrier.2 0 rfl
